import Mathlib

/-!
Verification model of `halacs/ibmhw` (`main.go`): a small web service that
stores one unix timestamp in memory, guards it with a capacity-1 channel
used as a binary semaphore, and exposes POST/GET handlers plus a
demonstration client in the same process.

The embedding is shallow: Go `int64` arithmetic is `Int` with explicit
two's-complement wrap-around, `*time.Time` is `Option GoTime`, fallible
JSON decoding returns `Except`, HTTP handlers are pure state transformers
on the server's single mutable slot, and the concurrency discipline of
`getData`/`setData` is a small-step machine over thread phases.
-/

namespace Ibmhw

/-- Smallest Go `int64` value. -/
def int64Min : Int := -(2 ^ 63)

/-- Largest Go `int64` value. -/
def int64Max : Int := 2 ^ 63 - 1

/-- Whether an integer is representable as a Go `int64`. -/
def isInt64 (n : Int) : Bool := int64Min ≤ n && n ≤ int64Max

/-- Two's-complement wrap-around into the signed 64-bit range, modelling
overflow of Go `int64` addition and subtraction. -/
def wrap64 (n : Int) : Int := (n + 2 ^ 63) % 2 ^ 64 - 2 ^ 63

/-- Offset in seconds between Go's internal time epoch (January 1, year 1)
and the Unix epoch; the constant `unixToInternal` of Go's `time` package. -/
def unixToInternal : Int := 62135596800

/-- Model of Go `time.Time` restricted to what the program uses: the
internal second count `ext` (an `int64`; the wall-clock nanosecond part is
always zero here because every value is built by `time.Unix(sec, 0)`). -/
structure GoTime where
  ext : Int
deriving DecidableEq

/-- Go `time.Unix(sec, 0)`: builds the `time.Time` with internal second
count `sec + unixToInternal`, with `int64` wrap-around. -/
def timeUnix (sec : Int) : GoTime := ⟨wrap64 (sec + unixToInternal)⟩

/-- Go `(t time.Time).Unix()`: the internal second count shifted back to
the Unix epoch, with `int64` wrap-around. -/
def GoTime.unix (t : GoTime) : Int := wrap64 (t.ext - unixToInternal)

/-- Internal data representation (`main.go` struct `Timestamp`): the field
`timestamp *time.Time` is a nullable pointer, modelled by `Option`. -/
structure Timestamp where
  timestamp : Option GoTime
deriving DecidableEq

/-- External data representation (`main.go` struct `TimestampJson`): the
wire type with the single `int64` field tagged `json:"timestamp"`. -/
structure TimestampJson where
  Timestamp : Int
deriving DecidableEq

/-- Abstract syntax of a well-formed JSON document, as Go's
`encoding/json` classifies it: `int` is a number with an integral value,
`numNonInt` a number with a fractional part (which cannot decode into an
`int64` field). -/
inductive Json where
  | null
  | bool (b : Bool)
  | int (n : Int)
  | numNonInt
  | str (s : String)
  | arr (elems : List Json)
  | obj (fields : List (String × Json))

/-- A request body as `json.Unmarshal` sees it: either not syntactically
valid JSON at all, or a parsed JSON document. -/
inductive Body where
  | invalid
  | val (j : Json)

/-- Field lookup in a JSON object; like Go's decoder, when a key is
repeated the last occurrence wins. -/
def lookupField (fields : List (String × Json)) (key : String) : Option Json :=
  fields.foldl (fun acc kv => if kv.1 = key then some kv.2 else acc) none

/-- Go `json.Unmarshal(b, &raw)` for `raw` a zero-valued `TimestampJson`:
an object supplies the `timestamp` field (missing field or JSON null
leaves the zero value; a fractional number, an out-of-range number, or a
value of the wrong kind is an error); a top-level `null` leaves the zero
value; any other top-level kind is an error. -/
def decodeTimestampJson : Json → Except String TimestampJson
  | .obj fields =>
    match lookupField fields "timestamp" with
    | none => .ok ⟨0⟩
    | some (.int n) =>
      if isInt64 n then .ok ⟨n⟩
      else .error "json: cannot unmarshal number into Go struct field of type int64: out of range"
    | some .numNonInt => .error "json: cannot unmarshal number into Go struct field of type int64"
    | some .null => .ok ⟨0⟩
    | some _ => .error "json: cannot unmarshal value into Go struct field of type int64"
  | .null => .ok ⟨0⟩
  | _ => .error "json: cannot unmarshal value into Go value of type main.TimestampJson"

/-- `func (t *Timestamp) UnmarshalJSON(b []byte) error` (main.go:72-87):
unmarshal the body into a `TimestampJson`, propagate its error, otherwise
install a freshly constructed pointer to `time.Unix(raw.Timestamp, 0)`. -/
def Timestamp.UnmarshalJSON (t : Timestamp) (b : Body) : Except String Timestamp :=
  match b with
  | .invalid => .error "invalid character in payload"
  | .val j =>
    match decodeTimestampJson j with
    | .error e => .error e
    | .ok raw => .ok { timestamp := some (timeUnix raw.Timestamp) }

/-- `func (t Timestamp) MarshalJSON() ([]byte, error)` (main.go:64-70):
encodes `TimestampJson` with field `t.timestamp.Unix()`; the result is
`none` when `t.timestamp` is nil, modelling the nil-dereference panic. -/
def Timestamp.MarshalJSON (t : Timestamp) : Option TimestampJson :=
  t.timestamp.map fun tm => ⟨tm.unix⟩

/-- `const initialUnixTimestamp int64 = 1622366082` (main.go:59). -/
def initialUnixTimestamp : Int := 1622366082

/-- `var now time.Time = time.Unix(initialUnixTimestamp, 0)` (main.go:61). -/
def nowInit : GoTime := timeUnix initialUnixTimestamp

/-- `var data Timestamp = Timestamp{timestamp: &now}` (main.go:62). -/
def dataInit : Timestamp := ⟨some nowInit⟩

/-- Sequential view of the server's mutable state: the single global
slot `data`. -/
structure ServerState where
  data : Timestamp
deriving DecidableEq

/-- The server state at process start. -/
def initialServerState : ServerState := ⟨dataInit⟩

/-- `func getData() Timestamp` (main.go:93-98), sequential view: return
the current value of the global `data`. -/
def getData (s : ServerState) : Timestamp := s.data

/-- `func setData(newValue Timestamp)` (main.go:100-105), sequential view:
overwrite the global `data`. -/
def setData (newValue : Timestamp) (s : ServerState) : ServerState :=
  { s with data := newValue }

/-- Outcome of an HTTP handler: a 200 response with a body, or an
`http.Error` with a status code and a body. -/
inductive HttpResponse where
  | ok (body : String)
  | err (status : Nat) (body : String)
deriving DecidableEq

/-- `func storeTimestamp(w, r)` (main.go:111-130): unmarshal the request
body into a zero-valued `Timestamp`; on error respond 500 without touching
the store; on success `setData` the decoded value and respond OK. -/
def storeTimestamp (body : Body) (s : ServerState) : ServerState × HttpResponse :=
  match Timestamp.UnmarshalJSON ⟨none⟩ body with
  | .error _ => (s, .err 500 "Unable to parse POST payload as a valid json value.")
  | .ok newData => (setData newData s, .ok "OK")

/-- The JSON document produced by encoding a `TimestampJson`. -/
def TimestampJson.toJson (t : TimestampJson) : Json :=
  .obj [("timestamp", .int t.Timestamp)]

/-- `func returnTimestamp(w, r)` (main.go:107-109): encode `getData()`
through `Timestamp.MarshalJSON`; `none` models the panic on a nil
pointer. -/
def returnTimestamp (s : ServerState) : Option Json :=
  (getData s).MarshalJSON.map TimestampJson.toJson

/-- The POST body built by `setTimestampCall` (main.go:150): the document
printed by Sprintf as a timestamp object around the given `int64`. -/
def setTimestampBody (newTimeStamp : Int) : Body :=
  .val (.obj [("timestamp", .int newTimeStamp)])

/-- The server state after serving a sequence of POST bodies, starting
from process start (GET requests do not alter the state). -/
def serverRun (bodies : List Body) : ServerState :=
  bodies.foldl (fun s b => (storeTimestamp b s).1) initialServerState

/-- The situations `getTimestampCall` (main.go:180-212) can encounter:
the transport call fails, reading the response body fails, or a body is
received and parsed. -/
inductive GetEnv where
  | transportErr
  | readErr
  | respBody (b : Body)

/-- `func getTimestampCall() (*int64, error)` (main.go:180-212): every
failure path returns a nil pointer (`none`) together with an error; the
success path returns a pointer to the decoded field and no error. -/
def getTimestampCall (env : GetEnv) : Option Int × Option String :=
  match env with
  | .transportErr => (none, some "Error when calling REST endpoint.")
  | .readErr => (none, some "Error when calling REST endpoint.")
  | .respBody b =>
    match b with
    | .invalid => (none, some "Unable to parse request response as a json value.")
    | .val j =>
      match decodeTimestampJson j with
      | .error e => (none, some e)
      | .ok ts => (some ts.Timestamp, none)

/-- Pointer dereference: `none` models the run-time panic on nil. -/
def deref (p : Option Int) : Option Int :=
  match p with
  | none => none
  | some v => some v

/-- The final statement of `main` (main.go:229-230): the error returned
by the fetch is discarded and the returned pointer is dereferenced for
printing; `none` models the nil-dereference panic. -/
def mainPrintLine (fetch : Option Int × Option String) : Option Int :=
  deref fetch.1

/-- Error-free execution of the client section of `main` (main.go:226-230):
submit the current instant to its own server, fetch it back through
`returnTimestamp` and the client-side decode, and print it; the returned
list is the sequence of values written to standard output. -/
def mainNormal (nowSec : Int) : List Int :=
  let afterSet := (storeTimestamp (setTimestampBody nowSec) initialServerState).1
  match returnTimestamp afterSet with
  | none => []
  | some j =>
    match decodeTimestampJson j with
    | .error _ => []
    | .ok ts => [ts.Timestamp]

/-- An operation on the guarded cell: a `getData` call or a `setData`
call with its argument. -/
inductive Op where
  | get
  | set (v : Timestamp)

/-- Control location of one thread executing `getData` or `setData`
(main.go:93-105): before the send `l <- 1`; after the send and before the
body; after the body and before the deferred receive `<-l`; returned. -/
inductive Phase where
  | idle
  | entered
  | accessed
  | done
deriving DecidableEq

/-- One concurrent call: its operation, its control location, and, for a
`getData` call, the value its body returned once it has run. -/
structure Thread where
  op : Op
  phase : Phase
  result : Option Timestamp

/-- Global state of the concurrent system: whether the capacity-1 channel
`l` (main.go:91) currently holds the token, the population of calls, and
the global `data` slot. -/
structure SysState where
  chanFull : Bool
  threads : List Thread
  data : Timestamp

/-- Whether a control location is inside the critical section: between
the send into `l` and the deferred receive. -/
def phaseInCrit : Phase → Bool
  | .entered => true
  | .accessed => true
  | .idle => false
  | .done => false

/-- Whether a control location is past the body of the call. -/
def phasePastBody : Phase → Bool
  | .accessed => true
  | .done => true
  | .idle => false
  | .entered => false

/-- Whether a control location is the returned one. -/
def phaseIsDone : Phase → Bool
  | .done => true
  | .idle => false
  | .entered => false
  | .accessed => false

/-- Whether a call is inside the critical section, holding the token. -/
def Thread.holding (t : Thread) : Bool :=
  phaseInCrit t.phase

/-- Number of calls currently inside the critical section. -/
def holders (s : SysState) : Nat :=
  s.threads.countP Thread.holding

/-- Whether a call is a `setData` call. -/
def Thread.isSet (t : Thread) : Bool :=
  match t.op with
  | .set _ => true
  | .get => false

/-- Whether a call is a `setData` call whose body (the store to `data`)
has already executed. -/
def wroteP (t : Thread) : Bool :=
  t.isSet && phasePastBody t.phase

/-- Whether a call is a `setData` call that has completed (returned). -/
def doneSetP (t : Thread) : Bool :=
  t.isSet && phaseIsDone t.phase

/-- Small-step interleaving semantics of concurrent `getData`/`setData`
calls (main.go:93-105): `acquire` is the send `l <- 1`, enabled only while
the channel is empty; `accessGet`/`accessSet` is the body reading or
writing the global `data`; `release` is the deferred receive `<-l`,
enabled only while the channel is full. -/
inductive Step : SysState → Nat → SysState → Prop where
  | acquire (s : SysState) (i : Nat) (t : Thread)
      (hget : s.threads[i]? = some t)
      (hphase : t.phase = .idle)
      (hfree : s.chanFull = false) :
      Step s i { s with chanFull := true,
                        threads := s.threads.set i { t with phase := .entered } }
  | accessGet (s : SysState) (i : Nat) (t : Thread)
      (hget : s.threads[i]? = some t)
      (hop : t.op = .get)
      (hphase : t.phase = .entered) :
      Step s i { s with
        threads := s.threads.set i { t with phase := .accessed, result := some s.data } }
  | accessSet (s : SysState) (i : Nat) (t : Thread) (v : Timestamp)
      (hget : s.threads[i]? = some t)
      (hop : t.op = .set v)
      (hphase : t.phase = .entered) :
      Step s i { s with data := v,
                        threads := s.threads.set i { t with phase := .accessed } }
  | release (s : SysState) (i : Nat) (t : Thread)
      (hget : s.threads[i]? = some t)
      (hphase : t.phase = .accessed)
      (hfull : s.chanFull = true) :
      Step s i { s with chanFull := false,
                        threads := s.threads.set i { t with phase := .done } }

/-- Initial system state for a population of pending calls: the channel
is empty (FREE), every call is before its send, and `data` holds the
process-start value. -/
def initSys (ops : List Op) : SysState :=
  { chanFull := false
    threads := ops.map fun o => { op := o, phase := .idle, result := none }
    data := dataInit }

/-- States reachable from the initial state by interleaving the calls'
steps. -/
inductive Reachable (ops : List Op) : SysState → Prop where
  | init : Reachable ops (initSys ops)
  | step (s s2 : SysState) (i : Nat) (h1 : Reachable ops s) (h2 : Step s i s2) :
      Reachable ops s2

/-- Reformulation of `List.countP_cons` using `Bool.toNat`. -/
theorem countP_cons_toNat (p : Thread → Bool) (a : Thread) (l : List Thread) :
    (a :: l).countP p = l.countP p + (p a).toNat := by
  cases hpa : p a
  · rw [List.countP_cons, hpa]
    rfl
  · rw [List.countP_cons, hpa]
    rfl

/-- Effect on `countP` of replacing the element at one position. -/
theorem countP_set_balance (p : Thread → Bool) :
    ∀ (l : List Thread) (i : Nat) (t t2 : Thread), l[i]? = some t →
      (l.set i t2).countP p + (p t).toNat = l.countP p + (p t2).toNat := by
  intro l
  induction l with
  | nil => intro i t t2 h; simp at h
  | cons a tl ih =>
    intro i t t2 h
    cases i with
    | zero =>
      simp only [List.getElem?_cons_zero, Option.some.injEq] at h
      subst h
      rw [List.set_cons_zero, countP_cons_toNat, countP_cons_toNat]
      omega
    | succ n =>
      simp only [List.getElem?_cons_succ] at h
      have hb := ih n t t2 h
      rw [List.set_cons_succ, countP_cons_toNat, countP_cons_toNat]
      omega

/-- Two distinct positions whose elements both satisfy `p` force a count
of at least two. -/
theorem two_le_countP (p : Thread → Bool) :
    ∀ (l : List Thread) (i j : Nat) (a b : Thread), i < j →
      l[i]? = some a → l[j]? = some b → p a = true → p b = true →
      2 ≤ l.countP p := by
  intro l
  induction l with
  | nil => intro i j a b _ h; simp at h
  | cons x tl ih =>
    intro i j a b hij ha hb hpa hpb
    cases i with
    | zero =>
      simp only [List.getElem?_cons_zero, Option.some.injEq] at ha
      subst ha
      cases j with
      | zero => omega
      | succ j2 =>
        simp only [List.getElem?_cons_succ] at hb
        have hmem : b ∈ tl := List.getElem?_mem hb
        have hpos : 0 < tl.countP p := List.countP_pos_iff.mpr ⟨b, hmem, hpb⟩
        rw [countP_cons_toNat, hpa]
        simp only [Bool.toNat_true]
        omega
    | succ i2 =>
      cases j with
      | zero => omega
      | succ j2 =>
        simp only [List.getElem?_cons_succ] at ha hb
        have hle := ih i2 j2 a b (by omega) ha hb hpa hpb
        rw [countP_cons_toNat]
        omega

/-- The channel-occupancy invariant: the number of calls inside the
critical section is 1 exactly while the channel holds the token, and 0
while it is empty. -/
def Inv (s : SysState) : Prop :=
  holders s = s.chanFull.toNat

/-- The initial state satisfies the channel-occupancy invariant. -/
theorem inv_initSys (ops : List Op) : Inv (initSys ops) := by
  simp only [Inv, initSys, holders, List.countP_map]
  have hc : (Thread.holding ∘ fun o => Thread.mk o Phase.idle none) = fun _ => false := by
    funext o
    rfl
  simp [hc, List.countP_eq_zero]

/-- Every step preserves the channel-occupancy invariant. -/
theorem inv_step (s s2 : SysState) (i : Nat) (hstep : Step s i s2) (hinv : Inv s) :
    Inv s2 := by
  cases hstep with
  | acquire t hget hphase hfree =>
    have hb := countP_set_balance Thread.holding s.threads i t
      { t with phase := .entered } hget
    have ht : Thread.holding t = false := by simp [Thread.holding, phaseInCrit, hphase]
    have ht2 : Thread.holding { t with phase := Phase.entered } = true := by
      simp [Thread.holding, phaseInCrit]
    rw [ht, ht2] at hb
    simp only [Bool.toNat_false, Bool.toNat_true] at hb
    simp only [Inv, holders] at hinv ⊢
    rw [hfree] at hinv
    simp only [Bool.toNat_false, Bool.toNat_true] at hinv ⊢
    omega
  | accessGet t hget hop hphase =>
    have hb := countP_set_balance Thread.holding s.threads i t
      { t with phase := .accessed, result := some s.data } hget
    have ht : Thread.holding t = true := by simp [Thread.holding, phaseInCrit, hphase]
    have ht2 : Thread.holding { t with phase := Phase.accessed, result := some s.data } = true := by
      simp [Thread.holding, phaseInCrit]
    rw [ht, ht2] at hb
    simp only [Bool.toNat_true] at hb
    simp only [Inv, holders] at hinv ⊢
    omega
  | accessSet t v hget hop hphase =>
    have hb := countP_set_balance Thread.holding s.threads i t
      { t with phase := .accessed } hget
    have ht : Thread.holding t = true := by simp [Thread.holding, phaseInCrit, hphase]
    have ht2 : Thread.holding { t with phase := Phase.accessed } = true := by
      simp [Thread.holding, phaseInCrit]
    rw [ht, ht2] at hb
    simp only [Bool.toNat_true] at hb
    simp only [Inv, holders] at hinv ⊢
    omega
  | release t hget hphase hfull =>
    have hb := countP_set_balance Thread.holding s.threads i t
      { t with phase := .done } hget
    have ht : Thread.holding t = true := by simp [Thread.holding, phaseInCrit, hphase]
    have ht2 : Thread.holding { t with phase := Phase.done } = false := by
      simp [Thread.holding, phaseInCrit]
    rw [ht, ht2] at hb
    simp only [Bool.toNat_false, Bool.toNat_true] at hb
    simp only [Inv, holders] at hinv ⊢
    rw [hfull] at hinv
    simp only [Bool.toNat_false, Bool.toNat_true] at hinv ⊢
    omega

/-- Every reachable state satisfies the channel-occupancy invariant. -/
theorem reachable_inv (ops : List Op) (s : SysState) (h : Reachable ops s) : Inv s := by
  induction h with
  | init => exact inv_initSys ops
  | step s1 s2 i h1 h2 ih => exact inv_step s1 s2 i h2 ih

/-- While no `setData` body has executed, the `data` slot still holds the
process-start value. -/
theorem data_of_no_write (ops : List Op) (s : SysState) (h : Reachable ops s) :
    s.threads.countP wroteP = 0 → s.data = dataInit := by
  induction h with
  | init => intro _; rfl
  | step s1 s2 j h1 hstep ih =>
    intro h0
    cases hstep with
    | acquire t hget hphase hfree =>
      have hb := countP_set_balance wroteP s1.threads j t { t with phase := .entered } hget
      have hsame : wroteP { t with phase := Phase.entered } = wroteP t := by
        simp [wroteP, phasePastBody, hphase]
      rw [hsame] at hb
      have h0x : (s1.threads.set j { t with phase := Phase.entered }).countP wroteP = 0 := h0
      exact ih (by omega)
    | accessGet t hget hop hphase =>
      have hb := countP_set_balance wroteP s1.threads j t
        { t with phase := .accessed, result := some s1.data } hget
      have hsame : wroteP { t with phase := Phase.accessed, result := some s1.data } =
          wroteP t := by
        simp [wroteP, Thread.isSet, phasePastBody, hphase, hop]
      rw [hsame] at hb
      have h0x : (s1.threads.set j
          { t with phase := Phase.accessed, result := some s1.data }).countP wroteP = 0 := h0
      exact ih (by omega)
    | accessSet t v hget hop hphase =>
      have hb := countP_set_balance wroteP s1.threads j t { t with phase := .accessed } hget
      have ht : wroteP t = false := by simp [wroteP, phasePastBody, hphase]
      have ht2 : wroteP { t with phase := Phase.accessed } = true := by
        simp [wroteP, Thread.isSet, phasePastBody, hop]
      rw [ht, ht2] at hb
      simp only [Bool.toNat_false, Bool.toNat_true] at hb
      have h0x : (s1.threads.set j { t with phase := Phase.accessed }).countP wroteP = 0 := h0
      exact absurd h0x (by omega)
    | release t hget hphase hfull =>
      have hb := countP_set_balance wroteP s1.threads j t { t with phase := .done } hget
      have hsame : wroteP { t with phase := Phase.done } = wroteP t := by
        simp [wroteP, Thread.isSet, phasePastBody, hphase]
      rw [hsame] at hb
      have h0x : (s1.threads.set j { t with phase := Phase.done }).countP wroteP = 0 := h0
      exact ih (by omega)

/-- While a `getData` call is inside the critical section and no
`setData` call has returned, no `setData` body can have executed at all:
a `setData` call past its body but not yet returned would be a second
holder of the permit. -/
theorem wroteP_zero_of_get_entered (ops : List Op) (s1 : SysState) (h1 : Reachable ops s1)
    (j : Nat) (t0 : Thread) (hget0 : s1.threads[j]? = some t0)
    (hop : t0.op = .get) (hphase : t0.phase = .entered)
    (hnd : s1.threads.countP doneSetP = 0) :
    s1.threads.countP wroteP = 0 := by
  by_contra hne
  have hpos : 0 < s1.threads.countP wroteP := Nat.pos_of_ne_zero hne
  obtain ⟨w, hwmem, hw⟩ := List.countP_pos_iff.mp hpos
  simp only [wroteP, Bool.and_eq_true] at hw
  rcases hw with ⟨hwset, hwpb⟩
  have hwph : w.phase = Phase.accessed ∨ w.phase = Phase.done := by
    cases hph : w.phase
    · rw [hph] at hwpb
      simp [phasePastBody] at hwpb
    · rw [hph] at hwpb
      simp [phasePastBody] at hwpb
    · exact Or.inl rfl
    · exact Or.inr rfl
  rcases hwph with hacc | hdone
  · obtain ⟨k, hk⟩ := List.getElem?_of_mem hwmem
    have hkj : k ≠ j := by
      intro e
      subst e
      rw [hk] at hget0
      have hwt : w = t0 := by injection hget0
      rw [hwt] at hwset
      simp [Thread.isSet, hop] at hwset
    have hwhold : Thread.holding w = true := by simp [Thread.holding, phaseInCrit, hacc]
    have hthold : Thread.holding t0 = true := by simp [Thread.holding, phaseInCrit, hphase]
    have h2 : 2 ≤ s1.threads.countP Thread.holding := by
      rcases Nat.lt_or_ge k j with hlt | hge
      · exact two_le_countP _ s1.threads k j w t0 hlt hk hget0 hwhold hthold
      · have hlt : j < k := by omega
        exact two_le_countP _ s1.threads j k t0 w hlt hget0 hk hthold hwhold
    have hinv := reachable_inv ops s1 h1
    simp only [Inv, holders] at hinv
    cases hcf : s1.chanFull
    · rw [hcf] at hinv
      simp only [Bool.toNat_false] at hinv
      omega
    · rw [hcf] at hinv
      simp only [Bool.toNat_true] at hinv
      omega
  · have hd : doneSetP w = true := by simp [doneSetP, phaseIsDone, hwset, hdone]
    have : 0 < s1.threads.countP doneSetP := List.countP_pos_iff.mpr ⟨w, hwmem, hd⟩
    omega

/-- While no `setData` call has returned, every value already returned by
a `getData` body is the process-start value. -/
theorem get_results_initial (ops : List Op) (s : SysState) (h : Reachable ops s) :
    s.threads.countP doneSetP = 0 →
    ∀ (i : Nat) (t : Thread), s.threads[i]? = some t → t.op = .get →
      ∀ r, t.result = some r → r = dataInit := by
  induction h with
  | init =>
    intro _ i t hget hop r hr
    have hmem := List.getElem?_mem hget
    simp only [initSys, List.mem_map] at hmem
    obtain ⟨o, _, rfl⟩ := hmem
    cases hr
  | step s1 s2 j h1 hstep ih =>
    intro h0 i t hget hop r hr
    cases hstep with
    | acquire t0 hget0 hphase0 hfree =>
      have hb := countP_set_balance doneSetP s1.threads j t0 { t0 with phase := .entered } hget0
      have hsame : doneSetP { t0 with phase := Phase.entered } = doneSetP t0 := by
        simp [doneSetP, phaseIsDone, hphase0]
      rw [hsame] at hb
      have h0x : (s1.threads.set j { t0 with phase := Phase.entered }).countP doneSetP = 0 := h0
      have h01 : s1.threads.countP doneSetP = 0 := by omega
      have hlen : j < s1.threads.length := (List.getElem?_eq_some.mp hget0).1
      by_cases hij : j = i
      · subst hij
        have he : (s1.threads.set j { t0 with phase := Phase.entered })[j]? =
            some { t0 with phase := Phase.entered } := List.getElem?_set_eq_of_lt _ hlen
        have hget3 : (s1.threads.set j { t0 with phase := Phase.entered })[j]? = some t := hget
        rw [he] at hget3
        have ht : { t0 with phase := Phase.entered } = t := by injection hget3
        subst ht
        exact ih h01 j t0 hget0 hop r hr
      · have he : (s1.threads.set j { t0 with phase := Phase.entered })[i]? =
            s1.threads[i]? := List.getElem?_set_ne hij
        have hget3 : (s1.threads.set j { t0 with phase := Phase.entered })[i]? = some t := hget
        rw [he] at hget3
        exact ih h01 i t hget3 hop r hr
    | accessGet t0 hget0 hop0 hphase0 =>
      have hb := countP_set_balance doneSetP s1.threads j t0
        { t0 with phase := .accessed, result := some s1.data } hget0
      have hsame : doneSetP { t0 with phase := Phase.accessed, result := some s1.data } =
          doneSetP t0 := by
        simp [doneSetP, phaseIsDone, hphase0]
      rw [hsame] at hb
      have h0x : (s1.threads.set j
          { t0 with phase := Phase.accessed, result := some s1.data }).countP doneSetP = 0 := h0
      have h01 : s1.threads.countP doneSetP = 0 := by omega
      have hlen : j < s1.threads.length := (List.getElem?_eq_some.mp hget0).1
      by_cases hij : j = i
      · subst hij
        have he : (s1.threads.set j
            { t0 with phase := Phase.accessed, result := some s1.data })[j]? =
            some { t0 with phase := Phase.accessed, result := some s1.data } :=
          List.getElem?_set_eq_of_lt _ hlen
        have hget3 : (s1.threads.set j
            { t0 with phase := Phase.accessed, result := some s1.data })[j]? = some t := hget
        rw [he] at hget3
        have ht : { t0 with phase := Phase.accessed, result := some s1.data } = t := by
          injection hget3
        subst ht
        have hr2 : s1.data = r := by injection hr
        have hw0 : s1.threads.countP wroteP = 0 :=
          wroteP_zero_of_get_entered ops s1 h1 j t0 hget0 hop0 hphase0 h01
        rw [← hr2]
        exact data_of_no_write ops s1 h1 hw0
      · have he : (s1.threads.set j
            { t0 with phase := Phase.accessed, result := some s1.data })[i]? =
            s1.threads[i]? := List.getElem?_set_ne hij
        have hget3 : (s1.threads.set j
            { t0 with phase := Phase.accessed, result := some s1.data })[i]? = some t := hget
        rw [he] at hget3
        exact ih h01 i t hget3 hop r hr
    | accessSet t0 v hget0 hop0 hphase0 =>
      have hb := countP_set_balance doneSetP s1.threads j t0 { t0 with phase := .accessed } hget0
      have hsame : doneSetP { t0 with phase := Phase.accessed } = doneSetP t0 := by
        simp [doneSetP, phaseIsDone, hphase0]
      rw [hsame] at hb
      have h0x : (s1.threads.set j { t0 with phase := Phase.accessed }).countP doneSetP = 0 := h0
      have h01 : s1.threads.countP doneSetP = 0 := by omega
      have hlen : j < s1.threads.length := (List.getElem?_eq_some.mp hget0).1
      by_cases hij : j = i
      · subst hij
        have he : (s1.threads.set j { t0 with phase := Phase.accessed })[j]? =
            some { t0 with phase := Phase.accessed } := List.getElem?_set_eq_of_lt _ hlen
        have hget3 : (s1.threads.set j { t0 with phase := Phase.accessed })[j]? = some t := hget
        rw [he] at hget3
        have ht : { t0 with phase := Phase.accessed } = t := by injection hget3
        subst ht
        have hopx : t0.op = Op.get := hop
        rw [hop0] at hopx
        cases hopx
      · have he : (s1.threads.set j { t0 with phase := Phase.accessed })[i]? =
            s1.threads[i]? := List.getElem?_set_ne hij
        have hget3 : (s1.threads.set j { t0 with phase := Phase.accessed })[i]? = some t := hget
        rw [he] at hget3
        exact ih h01 i t hget3 hop r hr
    | release t0 hget0 hphase0 hfull =>
      have hb := countP_set_balance doneSetP s1.threads j t0 { t0 with phase := .done } hget0
      have ht0d : doneSetP t0 = false := by simp [doneSetP, phaseIsDone, hphase0]
      have ht2d : doneSetP { t0 with phase := Phase.done } = t0.isSet := by
        simp [doneSetP, phaseIsDone, Thread.isSet]
      rw [ht0d, ht2d] at hb
      have h0x : (s1.threads.set j { t0 with phase := Phase.done }).countP doneSetP = 0 := h0
      cases hs0 : t0.isSet
      · rw [hs0] at hb
        simp only [Bool.toNat_false] at hb
        have h01 : s1.threads.countP doneSetP = 0 := by omega
        have hlen : j < s1.threads.length := (List.getElem?_eq_some.mp hget0).1
        by_cases hij : j = i
        · subst hij
          have he : (s1.threads.set j { t0 with phase := Phase.done })[j]? =
              some { t0 with phase := Phase.done } := List.getElem?_set_eq_of_lt _ hlen
          have hget3 : (s1.threads.set j { t0 with phase := Phase.done })[j]? = some t := hget
          rw [he] at hget3
          have ht : { t0 with phase := Phase.done } = t := by injection hget3
          subst ht
          exact ih h01 j t0 hget0 hop r hr
        · have he : (s1.threads.set j { t0 with phase := Phase.done })[i]? =
              s1.threads[i]? := List.getElem?_set_ne hij
          have hget3 : (s1.threads.set j { t0 with phase := Phase.done })[i]? = some t := hget
          rw [he] at hget3
          exact ih h01 i t hget3 hop r hr
      · rw [hs0] at hb
        simp only [Bool.toNat_false, Bool.toNat_true] at hb
        exact absurd h0x (by omega)

/-- The round-trip `time.Unix(sec, 0).Unix() = sec` for every `int64`
second count: the two wrap-arounds cancel. -/
theorem unix_timeUnix (sec : Int) (h : isInt64 sec = true) : (timeUnix sec).unix = sec := by
  have hb : -(2 ^ 63) ≤ sec ∧ sec ≤ 2 ^ 63 - 1 := by
    simpa [isInt64, int64Min, int64Max, decide_eq_true_eq] using h
  simp only [timeUnix, GoTime.unix, wrap64, unixToInternal]
  omega

/-- Decoding the object document carrying integer field `timestamp = x`
succeeds with value `x` for every `int64` `x`. -/
theorem decode_valid (x : Int) (hx : isInt64 x = true) :
    decodeTimestampJson (.obj [("timestamp", .int x)]) = .ok ⟨x⟩ := by
  simp [decodeTimestampJson, lookupField, hx]

/-- `UnmarshalJSON` succeeds on the well-formed submission body and
installs a fresh pointer to `time.Unix(x, 0)`. -/
theorem unmarshal_valid (x : Int) (hx : isInt64 x = true) (t : Timestamp) :
    Timestamp.UnmarshalJSON t (setTimestampBody x) = .ok ⟨some (timeUnix x)⟩ := by
  simp only [setTimestampBody, Timestamp.UnmarshalJSON]
  rw [decode_valid x hx]

/-- Re-encoding the freshly stored instant recovers the submitted second
count. -/
theorem marshal_timeUnix (x : Int) (hx : isInt64 x = true) :
    Timestamp.MarshalJSON ⟨some (timeUnix x)⟩ = some ⟨x⟩ := by
  simp [Timestamp.MarshalJSON, unix_timeUnix x hx]

/-- `storeTimestamp` on the well-formed submission body stores the
decoded instant and responds OK. -/
theorem store_valid (x : Int) (hx : isInt64 x = true) (s : ServerState) :
    storeTimestamp (setTimestampBody x) s = (setData ⟨some (timeUnix x)⟩ s, .ok "OK") := by
  unfold storeTimestamp
  rw [unmarshal_valid x hx]

/-- Every successful `UnmarshalJSON` installs a non-nil pointer. -/
theorem unmarshal_ok_nonnil (t : Timestamp) (b : Body) (res : Timestamp)
    (h : Timestamp.UnmarshalJSON t b = .ok res) : res.timestamp.isSome = true := by
  cases b with
  | invalid => simp [Timestamp.UnmarshalJSON] at h
  | val j =>
    simp only [Timestamp.UnmarshalJSON] at h
    cases hd : decodeTimestampJson j with
    | error e =>
      rw [hd] at h
      simp at h
    | ok raw =>
      rw [hd] at h
      have hres : (⟨some (timeUnix raw.Timestamp)⟩ : Timestamp) = res := by injection h
      rw [← hres]
      rfl

/-- `storeTimestamp` preserves non-nilness of the stored pointer. -/
theorem store_preserves_nonnil (b : Body) (s : ServerState)
    (h : s.data.timestamp.isSome = true) :
    ((storeTimestamp b s).1.data.timestamp).isSome = true := by
  unfold storeTimestamp
  cases hb : Timestamp.UnmarshalJSON ⟨none⟩ b with
  | error e => exact h
  | ok nd => exact unmarshal_ok_nonnil ⟨none⟩ b nd hb

/-- Folding any sequence of POST bodies over a state with a non-nil
stored pointer keeps the pointer non-nil. -/
theorem serverRun_nonnil_aux (bodies : List Body) :
    ∀ s : ServerState, s.data.timestamp.isSome = true →
      ((bodies.foldl (fun s2 b => (storeTimestamp b s2).1) s).data.timestamp).isSome = true := by
  induction bodies with
  | nil => intro s h; exact h
  | cons b tl ih =>
    intro s h
    rw [List.foldl_cons]
    exact ih _ (store_preserves_nonnil b s h)

/-- C1: the permit pool (the capacity-1 channel `l`) is a two-state
machine with initial state FREE (no token in the channel); in every
reachable state it is HELD exactly when one in-flight call holds it and
FREE exactly when none does, so at most one caller is ever inside the
critical section. -/
theorem c1_permit_pool_mutex (ops : List Op) :
    (initSys ops).chanFull = false ∧
    ∀ s, Reachable ops s → holders s ≤ 1 ∧
      (s.chanFull = true ↔ holders s = 1) ∧
      (s.chanFull = false ↔ holders s = 0) := by
  constructor
  · rfl
  · intro s h
    have hinv := reachable_inv ops s h
    simp only [Inv] at hinv
    cases hcf : s.chanFull
    · rw [hcf] at hinv
      simp only [Bool.toNat_false] at hinv
      simp [hinv]
    · rw [hcf] at hinv
      simp only [Bool.toNat_true] at hinv
      simp [hinv]

/-- Witness for C1: the mutual-exclusion bounds at the initial state of a
single pending `getData` call. -/
theorem c1_permit_pool_mutex_witness :
    holders (initSys [Op.get]) ≤ 1 ∧
      ((initSys [Op.get]).chanFull = true ↔ holders (initSys [Op.get]) = 1) ∧
      ((initSys [Op.get]).chanFull = false ↔ holders (initSys [Op.get]) = 0) :=
  (c1_permit_pool_mutex [Op.get]).2 (initSys [Op.get]) Reachable.init

/-- C2: for every signed 64-bit second count x, decoding the submission
payload carrying x via UnmarshalJSON succeeds, and after storing the
decoded value with setData, getData followed by re-encoding yields
exactly x. -/
theorem c2_write_read_round_trip (x : Int) (hx : isInt64 x = true) (s : ServerState) :
    ∃ t, Timestamp.UnmarshalJSON ⟨none⟩ (setTimestampBody x) = .ok t ∧
      (getData (setData t s)).MarshalJSON = some ⟨x⟩ := by
  refine ⟨⟨some (timeUnix x)⟩, unmarshal_valid x hx ⟨none⟩, ?_⟩
  show Timestamp.MarshalJSON ⟨some (timeUnix x)⟩ = some ⟨x⟩
  exact marshal_timeUnix x hx

/-- Witness for C2 at the largest `int64` second count. -/
theorem c2_write_read_round_trip_witness :
    isInt64 9223372036854775807 = true ∧
    ∃ t, Timestamp.UnmarshalJSON ⟨none⟩ (setTimestampBody 9223372036854775807) = .ok t ∧
      (getData (setData t initialServerState)).MarshalJSON =
        some ⟨9223372036854775807⟩ :=
  ⟨by decide, c2_write_read_round_trip 9223372036854775807 (by decide) initialServerState⟩

/-- C3: for every malformed submission payload (one the decoder rejects),
storeTimestamp responds with the 500 error, never calls setData (the
state is returned unchanged), and a subsequent read observes exactly the
pre-submission value. -/
theorem c3_reject_isolation (b : Body) (s : ServerState) (e : String)
    (hb : Timestamp.UnmarshalJSON ⟨none⟩ b = .error e) :
    storeTimestamp b s =
      (s, .err 500 "Unable to parse POST payload as a valid json value.") ∧
    returnTimestamp (storeTimestamp b s).1 = returnTimestamp s := by
  have h1 : storeTimestamp b s =
      (s, .err 500 "Unable to parse POST payload as a valid json value.") := by
    unfold storeTimestamp
    rw [hb]
  refine ⟨h1, ?_⟩
  rw [h1]

/-- Witness for C3 on the payload whose timestamp field is a number with
a fractional part. -/
theorem c3_reject_isolation_witness :
    storeTimestamp (Body.val (Json.obj [("timestamp", Json.numNonInt)])) initialServerState =
      (initialServerState,
        HttpResponse.err 500 "Unable to parse POST payload as a valid json value.") ∧
    returnTimestamp (storeTimestamp (Body.val (Json.obj [("timestamp", Json.numNonInt)]))
        initialServerState).1 = returnTimestamp initialServerState :=
  c3_reject_isolation (Body.val (Json.obj [("timestamp", Json.numNonInt)]))
    initialServerState "json: cannot unmarshal number into Go struct field of type int64" rfl

/-- C4: the initial value is established at process start; before any
write has completed, every value a completed read has returned encodes to
exactly 1622366082 seconds since the epoch. -/
theorem c4_initial_value (ops : List Op) (s : SysState) (h : Reachable ops s)
    (hnd : s.threads.countP doneSetP = 0) :
    (initSys ops).data = dataInit ∧
    dataInit.MarshalJSON = some ⟨1622366082⟩ ∧
    ∀ (i : Nat) (t : Thread), s.threads[i]? = some t → t.op = .get →
      ∀ r, t.result = some r → r.MarshalJSON = some ⟨1622366082⟩ := by
  refine ⟨rfl, marshal_timeUnix 1622366082 (by decide), ?_⟩
  intro i t hget hop r hr
  have hr2 := get_results_initial ops s h hnd i t hget hop r hr
  rw [hr2]
  exact marshal_timeUnix 1622366082 (by decide)

/-- Witness for C4 on a concrete two-step run in which one `getData` call
acquires the permit and reads. -/
theorem c4_initial_value_witness : dataInit.MarshalJSON = some ⟨1622366082⟩ := by
  have h0 : Reachable [Op.get] (initSys [Op.get]) := Reachable.init
  have hs1 := Step.acquire (initSys [Op.get]) 0 ⟨Op.get, Phase.idle, none⟩ rfl rfl rfl
  have h1 := Reachable.step _ _ 0 h0 hs1
  have hs2 := Step.accessGet
    { chanFull := true, threads := [⟨Op.get, Phase.entered, none⟩], data := dataInit } 0
    ⟨Op.get, Phase.entered, none⟩ rfl rfl rfl
  have h2 := Reachable.step _ _ 0 h1 hs2
  exact (c4_initial_value [Op.get] _ h2 rfl).2.2 0 _ rfl rfl dataInit rfl

/-- C5: getData has no side effect on the stored value: every step taken
by a `getData` call leaves `data` unchanged, and its body step records
exactly the current value of `data` as the returned result. -/
theorem c5_getData_no_side_effect (s s2 : SysState) (i : Nat) (t : Thread)
    (hstep : Step s i s2) (hget : s.threads[i]? = some t) (hop : t.op = .get) :
    s2.data = s.data ∧
    (t.phase = Phase.entered →
      s2.threads[i]? = some { t with phase := Phase.accessed, result := some s.data }) := by
  cases hstep with
  | acquire t0 hget0 hphase0 hfree =>
    rw [hget0] at hget
    have ht : t0 = t := by injection hget
    subst ht
    refine ⟨rfl, ?_⟩
    intro hph
    rw [hph] at hphase0
    simp at hphase0
  | accessGet t0 hget0 hop0 hphase0 =>
    rw [hget0] at hget
    have ht : t0 = t := by injection hget
    subst ht
    refine ⟨rfl, ?_⟩
    intro hph
    have hlen : i < s.threads.length := (List.getElem?_eq_some.mp hget0).1
    exact List.getElem?_set_eq_of_lt _ hlen
  | accessSet t0 v hget0 hop0 hphase0 =>
    rw [hget0] at hget
    have ht : t0 = t := by injection hget
    subst ht
    rw [hop0] at hop
    cases hop
  | release t0 hget0 hphase0 hfull =>
    rw [hget0] at hget
    have ht : t0 = t := by injection hget
    subst ht
    refine ⟨rfl, ?_⟩
    intro hph
    rw [hph] at hphase0
    simp at hphase0

/-- Witness for C5 on a concrete body step of one `getData` call. -/
theorem c5_getData_no_side_effect_witness :
    (SysState.mk true [⟨Op.get, Phase.accessed, some dataInit⟩] dataInit).data =
      (SysState.mk true [⟨Op.get, Phase.entered, none⟩] dataInit).data ∧
    (SysState.mk true [⟨Op.get, Phase.accessed, some dataInit⟩] dataInit).threads[0]? =
      some ⟨Op.get, Phase.accessed, some dataInit⟩ := by
  have h := c5_getData_no_side_effect
    (SysState.mk true [⟨Op.get, Phase.entered, none⟩] dataInit)
    (SysState.mk true [⟨Op.get, Phase.accessed, some dataInit⟩] dataInit)
    0 ⟨Op.get, Phase.entered, none⟩
    (Step.accessGet (SysState.mk true [⟨Op.get, Phase.entered, none⟩] dataInit) 0
      ⟨Op.get, Phase.entered, none⟩ rfl rfl rfl)
    rfl rfl
  exact ⟨h.1, h.2 rfl⟩

/-- C6: in the error-free case, main's sole standard-output content is
exactly one fetched timestamp value, produced after the demonstration
round-trip of submitting the current instant and fetching it back from
its own server. -/
theorem c6_main_single_output (nowSec : Int) (h : isInt64 nowSec = true) :
    mainNormal nowSec = [nowSec] := by
  have hstore : (storeTimestamp (setTimestampBody nowSec) initialServerState).1 =
      setData ⟨some (timeUnix nowSec)⟩ initialServerState := by
    rw [store_valid nowSec h]
  have hr2 : returnTimestamp (setData ⟨some (timeUnix nowSec)⟩ initialServerState) =
      some (Json.obj [("timestamp", Json.int nowSec)]) := by
    show (Timestamp.MarshalJSON ⟨some (timeUnix nowSec)⟩).map TimestampJson.toJson =
      some (Json.obj [("timestamp", Json.int nowSec)])
    rw [marshal_timeUnix nowSec h]
    rfl
  simp only [mainNormal]
  rw [hstore, hr2]
  simp [decode_valid nowSec h]

/-- Witness for C6 at second count 0. -/
theorem c6_main_single_output_witness : isInt64 0 = true ∧ mainNormal 0 = [0] :=
  ⟨by decide, c6_main_single_output 0 (by decide)⟩

/-- C7: the wire encoding carries the signed integer count of seconds
since the epoch: MarshalJSON of a stored non-nil Timestamp yields the
payload whose field is its Unix seconds, and UnmarshalJSON of the payload
carrying integer n stores the instant whose Unix seconds equal n. -/
theorem c7_wire_encoding :
    (∀ tm : GoTime, Timestamp.MarshalJSON ⟨some tm⟩ = some ⟨tm.unix⟩) ∧
    (∀ n : Int, isInt64 n = true →
      Timestamp.UnmarshalJSON ⟨none⟩ (.val (.obj [("timestamp", .int n)])) =
        .ok ⟨some (timeUnix n)⟩ ∧
      (timeUnix n).unix = n) := by
  constructor
  · intro tm
    rfl
  · intro n hn
    exact ⟨unmarshal_valid n hn ⟨none⟩, unix_timeUnix n hn⟩

/-- Witness for C7 at the pre-epoch second count -100. -/
theorem c7_wire_encoding_witness :
    Timestamp.UnmarshalJSON ⟨none⟩ (.val (.obj [("timestamp", .int (-100))])) =
      .ok ⟨some (timeUnix (-100))⟩ ∧ (timeUnix (-100)).unix = -100 :=
  c7_wire_encoding.2 (-100) (by decide)

/-- C8: every error return of getTimestampCall carries a nil timestamp
pointer, so main's final print, whose error result is discarded without a
check, dereferences nil exactly when the demonstration fetch failed, and
is safe when the fetch succeeded. -/
theorem c8_fetch_error_nil_deref :
    (∀ env e, (getTimestampCall env).2 = some e →
      (getTimestampCall env).1 = none ∧ mainPrintLine (getTimestampCall env) = none) ∧
    (∀ env, (getTimestampCall env).2 = none →
      (mainPrintLine (getTimestampCall env)).isSome = true) := by
  constructor
  · intro env e he
    cases env with
    | transportErr => exact ⟨rfl, rfl⟩
    | readErr => exact ⟨rfl, rfl⟩
    | respBody b =>
      cases b with
      | invalid => exact ⟨rfl, rfl⟩
      | val j =>
        cases hd : decodeTimestampJson j with
        | error e2 =>
          have hg : getTimestampCall (GetEnv.respBody (Body.val j)) = (none, some e2) := by
            simp [getTimestampCall, hd]
          rw [hg]
          exact ⟨rfl, rfl⟩
        | ok ts =>
          have hg : getTimestampCall (GetEnv.respBody (Body.val j)) =
              (some ts.Timestamp, none) := by
            simp [getTimestampCall, hd]
          rw [hg] at he
          simp at he
  · intro env he
    cases env with
    | transportErr => simp [getTimestampCall] at he
    | readErr => simp [getTimestampCall] at he
    | respBody b =>
      cases b with
      | invalid => simp [getTimestampCall] at he
      | val j =>
        cases hd : decodeTimestampJson j with
        | error e2 =>
          have hg : getTimestampCall (GetEnv.respBody (Body.val j)) = (none, some e2) := by
            simp [getTimestampCall, hd]
          rw [hg] at he
          simp at he
        | ok ts =>
          have hg : getTimestampCall (GetEnv.respBody (Body.val j)) =
              (some ts.Timestamp, none) := by
            simp [getTimestampCall, hd]
          rw [hg]
          rfl

/-- Witness for C8 on a failed transport call. -/
theorem c8_fetch_error_nil_deref_witness :
    (getTimestampCall GetEnv.transportErr).1 = none ∧
      mainPrintLine (getTimestampCall GetEnv.transportErr) = none :=
  c8_fetch_error_nil_deref.1 GetEnv.transportErr "Error when calling REST endpoint." rfl

/-- C9: the valid JSON object without a timestamp field is not rejected:
storeTimestamp responds OK and overwrites the store with the instant at 0
seconds since the epoch, which a subsequent read returns. -/
theorem c9_missing_field_stores_zero (s : ServerState) :
    storeTimestamp (.val (.obj [])) s = (setData ⟨some (timeUnix 0)⟩ s, .ok "OK") ∧
    returnTimestamp (storeTimestamp (.val (.obj [])) s).1 =
      some (.obj [("timestamp", .int 0)]) := by
  have h1 : storeTimestamp (.val (.obj [])) s = (setData ⟨some (timeUnix 0)⟩ s, .ok "OK") := by
    unfold storeTimestamp
    rw [show Timestamp.UnmarshalJSON ⟨none⟩ (.val (.obj [])) = .ok ⟨some (timeUnix 0)⟩ from rfl]
  refine ⟨h1, ?_⟩
  rw [h1]
  show (Timestamp.MarshalJSON ⟨some (timeUnix 0)⟩).map TimestampJson.toJson =
    some (.obj [("timestamp", .int 0)])
  rw [marshal_timeUnix 0 (by decide)]
  rfl

/-- C10: the stored Timestamp's pointer is never nil: it is non-nil at
process start, stays non-nil across any sequence of POST requests so that
MarshalJSON stays total on the stored value, and every successful
UnmarshalJSON installs a freshly constructed non-nil pointer. -/
theorem c10_pointer_never_nil :
    (∀ bodies : List Body, ((serverRun bodies).data.timestamp).isSome = true ∧
      ((serverRun bodies).data.MarshalJSON).isSome = true) ∧
    (∀ (t : Timestamp) (b : Body) (res : Timestamp),
      Timestamp.UnmarshalJSON t b = .ok res → res.timestamp.isSome = true) := by
  constructor
  · intro bodies
    have h1 : ((serverRun bodies).data.timestamp).isSome = true :=
      serverRun_nonnil_aux bodies initialServerState rfl
    refine ⟨h1, ?_⟩
    cases ho : (serverRun bodies).data.timestamp with
    | none =>
      rw [ho] at h1
      simp at h1
    | some tm =>
      show ((serverRun bodies).data.timestamp.map fun tm2 =>
        (⟨tm2.unix⟩ : TimestampJson)).isSome = true
      rw [ho]
      rfl
  · exact unmarshal_ok_nonnil

/-- Witness for C10 on the decode of a JSON null body. -/
theorem c10_pointer_never_nil_witness :
    (Timestamp.mk (some (timeUnix 0))).timestamp.isSome = true :=
  c10_pointer_never_nil.2 ⟨none⟩ (Body.val Json.null) ⟨some (timeUnix 0)⟩ rfl

end Ibmhw
